import Mathlib

/-
Verification development for the Maj. Pickletooth bot (src/index.js).

Shallow embedding conventions:
* JS strings are modeled as Lean `String` / `List Char` (sequences of Unicode
  scalar values); `toLowerCase` is modeled per-character (the triggers and
  keywords in the source are all ASCII).
* JS `Map` objects are modeled as association lists with JS `Map` semantics
  (`set` updates an existing key in place, otherwise appends; `delete`
  removes the entry; `has` tests presence).
* JS plain objects used as dictionaries (the per-channel memory map) are
  modeled as functions into `Option`.
* `Math.random() < p` draws are modeled as explicit boolean oracles.
* `await member.setNickname(...)` may throw; its success/failure is modeled
  as an explicit boolean argument.  A failure is caught by the source and
  only logged.
-/

/- ===== generic JS-like helpers ===== -/

-- JS `haystack.includes(needle)`: substring (infix) test.
def jsIncludes (hay : List Char) (needle : String) : Bool :=
  decide (needle.data <:+: hay)

-- JS `s.toLowerCase()` (per-scalar lowering; source data is ASCII).
def jsLower (s : String) : List Char :=
  s.data.map Char.toLower

-- JS `s.startsWith(p)`.
def jsStartsWith (s p : String) : Bool :=
  decide (p.data <+: s.data)

-- JS `arr.slice(-n)` for a nonnegative integer `n` (`slice(-0)` = `slice(0)`
-- returns the whole array).
def jsSliceNeg (l : List α) (n : Nat) : List α :=
  if n = 0 then l else l.drop (l.length - n)

-- The last `n` elements of a list (all of it when `n ≥ length`).
def lastN (n : Nat) (l : List α) : List α :=
  l.drop (l.length - n)

-- ECMAScript WhiteSpace / LineTerminator class used by `String.prototype.trim`.
def jsWsChar (c : Char) : Bool :=
  c == ' ' || c == '\t' || c == '\n' || c == '\r' ||
  c == Char.ofNat 11 || c == Char.ofNat 12 || c == Char.ofNat 0xa0 ||
  c == Char.ofNat 0x1680 || (decide (0x2000 ≤ c.toNat) && decide (c.toNat ≤ 0x200a)) ||
  c == Char.ofNat 0x2028 || c == Char.ofNat 0x2029 || c == Char.ofNat 0x202f ||
  c == Char.ofNat 0x205f || c == Char.ofNat 0xfeff

-- JS `s.trim()`.
def jsTrim (s : String) : String :=
  String.mk (((s.data.dropWhile jsWsChar).reverse.dropWhile jsWsChar).reverse)

/- ===== conversation memory store (src/index.js lines 84-111) ===== -/

-- One recorded turn `{ speaker, text }`.
structure Turn where
  speaker : String
  text : String
deriving DecidableEq

-- `memoryMap`, a JS object keyed by channel id.
abbrev MemMap : Type := String → Option (List Turn)

-- `MAX_MEMORY_ENTRIES = Number(process.env.MAX_MEMORY_ENTRIES || 14)`;
-- modeled at its default value 14.
def MAX_MEMORY_ENTRIES : Nat := 14

-- `appendToMemory(channelId, speaker, text)` (lines 97-105): lazily create
-- the channel entry, push the turn, trim with `slice(-MAX_MEMORY_ENTRIES)`
-- when over the cap, then persist (persistence is modeled separately by the
-- key-value store below; it does not affect the in-memory map).
def appendToMemory (m : MemMap) (channelId speaker text : String) : MemMap :=
  let cur := (m channelId).getD []
  let pushed := cur ++ [⟨speaker, text⟩]
  let trimmed :=
    if MAX_MEMORY_ENTRIES < pushed.length then jsSliceNeg pushed MAX_MEMORY_ENTRIES
    else pushed
  fun c => if c = channelId then some trimmed else m c

-- `getMemory(channelId)` (lines 109-111): `memoryMap[channelId] || []`.
def getMemory (m : MemMap) (channelId : String) : List Turn :=
  (m channelId).getD []

-- One call to `appendToMemory`.
structure AppendCall where
  channelId : String
  speaker : String
  text : String
deriving DecidableEq

-- The empty memory map (fresh store).
def emptyMem : MemMap := fun _ => none

-- Replay a sequence of `appendToMemory` calls from the fresh store.
def runAppends (calls : List AppendCall) : MemMap :=
  calls.foldl (fun m c => appendToMemory m c.channelId c.speaker c.text) emptyMem

-- All turns appended to channel `ch` by a call sequence, in arrival order.
def turnsFor (ch : String) (calls : List AppendCall) : List Turn :=
  (calls.filter (fun c => c.channelId == ch)).map (fun c => ⟨c.speaker, c.text⟩)

/- ===== moderation flag set (src/index.js lines 117-172) ===== -/

-- A `maggots` entry `{ name, at }` (field `at` renamed `atMs`: `at` is a
-- Lean keyword).
structure MagEntry where
  name : String
  atMs : Nat
deriving DecidableEq

-- The `maggots` JS `Map`, as an association list.
abbrev MagMap : Type := List (String × MagEntry)

-- JS `maggots.has(id)`.
def mhas (st : MagMap) (u : String) : Bool :=
  st.any (fun p => p.1 == u)

-- JS `maggots.get(id)`.
def mget (st : MagMap) (u : String) : Option MagEntry :=
  (st.find? (fun p => p.1 == u)).map Prod.snd

-- JS `maggots.set(id, e)`: replace in place if the key exists, else append.
def mset (st : MagMap) (u : String) (e : MagEntry) : MagMap :=
  match st with
  | [] => [(u, e)]
  | (k, v) :: t => if k == u then (k, e) :: t else (k, v) :: mset t u e

-- JS `maggots.delete(id)`: remove the entry with the key, if present.
def mdelete (st : MagMap) (u : String) : MagMap :=
  match st with
  | [] => []
  | (k, v) :: t => if k == u then t else (k, v) :: mdelete t u

-- `markMaggot(member, label)` (lines 159-167).  `renameOk` models whether
-- `await member.setNickname(label)` succeeded; on failure the exception is
-- caught, a warning is logged, and -- crucially -- `maggots.set` is skipped,
-- because it is sequenced after the `await` inside the `try` block.
def markMaggot (st : MagMap) (memberId label : String) (renameOk : Bool) (nowMs : Nat) :
    MagMap :=
  if mhas st memberId then st
  else if renameOk then mset st memberId ⟨label, nowMs⟩
  else st

-- `unmarkMaggot(member)` (lines 170-172).
def unmarkMaggot (st : MagMap) (memberId : String) : MagMap :=
  mdelete st memberId

/- ===== trigger classification (src/index.js lines 127-154, 599-611) ===== -/

def MAGGOT_TRIGGERS : List String :=
  ["shut up", "stfu", "fuck you", "useless", "worthless", "dumb bot", "stupid bot"]

def DEGRADE_NAMES : List String :=
  ["maggot", "worm", "grunt", "boot", "peasant", "slug", "private"]

-- `MAGGOT_TRIGGERS.some((t) => lower.includes(t))` with `lower = raw.toLowerCase()`.
def explicitTrigger (raw : String) : Bool :=
  MAGGOT_TRIGGERS.any (fun t => jsIncludes (jsLower raw) t)

-- The `shouldDegrade` computation of the MessageCreate handler (lines 599-611).
-- `already = maggots.has(author.id)`; `randHit` models
-- `Math.random() < RANDOM_DEGRADE_CHANCE` (only consulted when the guard
-- `!already && !explicit` holds, by JS short-circuit evaluation).
def shouldDegradeCheck (raw : String) (already : Bool) (randHit : Bool) : Bool :=
  let explicit := explicitTrigger raw
  let s1 := if !already && explicit then true else false
  if !already && !explicit && randHit then
    (if decide (10 < (jsLower raw).length) && !(jsStartsWith raw ("!")) then true else s1)
  else s1

/- ===== nickname enforcement (src/index.js lines 623-633 and 657-670) ===== -/

-- Reactive enforcement inside the MessageCreate handler (lines 623-633).
-- Returns the nickname the handler passes to `setNickname`, if any.
-- `currentNick` is `message.member.nickname` (`none` = no nickname; the JS
-- truthiness test also rejects the empty string).
def reactiveEnforce (st : MagMap) (uid : String) (currentNick : Option String) :
    Option String :=
  if mhas st uid then
    match currentNick with
    | none => none
    | some n =>
      if n == ("") then none
      else if jsLower n ≠ ("maggot").data then some ("maggot") else none
  else none

-- GuildMemberUpdate enforcement (lines 657-670).  Returns the nickname the
-- handler passes to `setNickname`, if any.
def guildUpdateEnforce (st : MagMap) (uid : String) (newNick : Option String) :
    Option String :=
  match mget st uid with
  | none => none
  | some e =>
    let desired := if e.name == ("") then ("maggot").data else jsLower e.name
    let current : Option (List Char) :=
      match newNick with
      | none => none
      | some n => if n == ("") then none else some (jsLower n)
    match current with
    | none => none
    | some cur =>
      if cur ≠ desired then some (if e.name == ("") then ("maggot") else e.name)
      else none

/- ===== moderation event system (for the flag-set invariant) ===== -/

-- The events that mutate the flag set: a trigger firing (explicit or random,
-- both funnel into `markMaggot`) and amnesty (`unmarkMaggot`).
inductive ModEvent where
  | trigger (uid label : String) (renameOk : Bool) (nowMs : Nat)
  | amnestyEv (uid : String)
deriving DecidableEq

def modStep (st : MagMap) : ModEvent → MagMap
  | .trigger u l ok t => markMaggot st u l ok t
  | .amnestyEv u => unmarkMaggot st u

def runMod (evs : List ModEvent) : MagMap :=
  evs.foldl modStep []

/- ===== response gate (src/index.js lines 561-581) ===== -/

def RESPOND_KEYWORDS : List String :=
  ["pickletooth", "pickle", "maj", "major", "sir", "task force reaper",
   "shadow company", "cube cult", "civil war", "tfr", "sc", "cube"]

-- `shouldRespond(message)`.  `authorBot = message.author.bot`; `randHit`
-- models `Math.random() < RANDOM_CHIME_CHANCE`; `nowMs`/`lastMs` model
-- `Date.now()` and the per-channel last-response timestamp (`|| 0`).
def shouldRespond (content : String) (authorBot : Bool) (randHit : Bool)
    (nowMs lastMs : Int) : Bool :=
  let c := jsLower content
  if authorBot then false
  else if RESPOND_KEYWORDS.any (fun k => jsIncludes c k) then true
  else if jsIncludes c ("?") then true
  else if decide (15 ≤ c.length) && randHit then
    (if nowMs - lastMs > 10000 then true else false)
  else false

/- ===== intel response (src/index.js lines 330-367) ===== -/

-- Prompt assembly of `respondWithIntel`: memory lines (defensively re-sliced
-- to the last MAX_MEMORY_ENTRIES), a header when nonempty, then the prompt.
def composePrompt (mem : List Turn) (promptText : String) : String :=
  let entries := lastN MAX_MEMORY_ENTRIES mem
  let memoryLines := entries.map (fun it => it.speaker ++ (": ") ++ it.text)
  let memHeader :=
    if memoryLines.isEmpty then ("")
    else ("Previous conversation:\n") ++ String.intercalate ("\n") memoryLines ++ ("\n\n")
  memHeader ++ promptText

-- Outcome of `model.generateContent`: `.error` models a thrown error;
-- `.ok none` models a response whose `.response.text` is not a function;
-- `.ok (some s)` models `text()` returning `s`.
abbrev GenOutcome : Type := Except String (Option String)

-- `respondWithIntel` (lines 330-367), with the generation backend as an
-- explicit collaborator mapping the composed prompt to an outcome.
def respondWithIntel (mem : List Turn) (promptText : String)
    (gen : String → GenOutcome) : String :=
  match gen (composePrompt mem promptText) with
  | .error _ => "Gemini request failed. Check configuration."
  | .ok t =>
    let out := t.getD ("")
    let trimmed := jsTrim out
    if trimmed == ("") then "I couldn't formulate a response." else trimmed

/- ===== amnesty command branch (src/index.js lines 522-555) ===== -/

-- The regex `/<@!?([0-9]+)>/` applied at the head of the character list.
def mentionHere (cs : List Char) : Option String :=
  match cs with
  | '<' :: '@' :: r =>
    let r2 := if r.head? == some '!' then r.tail else r
    let ds := r2.takeWhile Char.isDigit
    if ds.isEmpty then none
    else
      match r2.drop ds.length with
      | '>' :: _ => some (String.mk ds)
      | _ => none
  | _ => none

-- `mention.match(/<@!?([0-9]+)>/)`: first match anywhere in the string.
def findMention : List Char → Option String
  | [] => none
  | c :: t =>
    match mentionHere (c :: t) with
    | some s => some s
    | none => findMention t

-- The `amnesty`/`forgive` branch of `handleCommand` (lines 522-555).
-- `renameOk` models whether the `guild.members.fetch` + `setNickname(null)`
-- attempt succeeded; its failure is caught and only logged, so it cannot
-- affect the returned state or reply.  Returns (new flag set, reply text).
def amnestyBranch (isCreator : Bool) (rest : List String) (st : MagMap)
    (renameOk : Bool) : MagMap × String :=
  if !isCreator then (st, "Only the creator can forgive a maggot.")
  else
    match rest with
    | [] => (st, "Usage: !amnesty @user")
    | mention :: _ =>
      match findMention mention.data with
      | none => (st, "Please mention a user to grant amnesty.")
      | some userId =>
        if !mhas st userId then
          (st, "That user is not currently marked as a maggot.")
        else
          (unmarkMaggot st userId,
            ("Amnesty granted to ") ++ mention ++ (". They are no longer a maggot."))

/- ===== persistent key-value store (src/index.js lines 47-60) ===== -/

-- JSON-representable store documents.  The two persisted documents (the
-- alias map: object of strings; the memory map: object of arrays of objects
-- of strings) only ever contain strings, arrays and objects, so the model
-- covers exactly that JSON fragment (no numbers, booleans or null, which
-- never occur in a store document).  Strings are sequences of Unicode
-- scalar values.
inductive Jval where
  | str (s : String)
  | arr (elems : List Jval)
  | obj (entries : List (String × Jval))

-- Brace characters, kept abstract as character codes.
def lbrace : Char := Char.ofNat 123
def rbrace : Char := Char.ofNat 125

-- Lowercase hex digit, as produced by JSON.stringify unicode escapes.
def hexDig (n : Nat) : Char :=
  if n < 10 then Char.ofNat (48 + n) else Char.ofNat (87 + n)

-- Escape of one character inside a JSON string literal, per
-- JSON.stringify (QuoteJSONString): quote, backslash, the named control
-- escapes, unicode escapes for other control characters, everything else
-- verbatim.
def escChar (c : Char) : List Char :=
  if c == '"' then ['\\', '"']
  else if c == '\\' then ['\\', '\\']
  else if c == Char.ofNat 8 then ['\\', 'b']
  else if c == '\t' then ['\\', 't']
  else if c == '\n' then ['\\', 'n']
  else if c == Char.ofNat 12 then ['\\', 'f']
  else if c == '\r' then ['\\', 'r']
  else if decide (c.toNat < 32) then
    ['\\', 'u', '0', '0', hexDig (c.toNat / 16), hexDig (c.toNat % 16)]
  else [c]

def escapeChars : List Char → List Char
  | [] => []
  | c :: t => escChar c ++ escapeChars t

-- A quoted JSON string literal.
def printStr (s : String) : List Char :=
  '"' :: (escapeChars s.data ++ ['"'])

-- Indentation produced by JSON.stringify(·, null, 2) at nesting depth d.
def indC (d : Nat) : List Char := List.replicate (2 * d) ' '

mutual
def printVal (d : Nat) : Jval → List Char
  | .str s => printStr s
  | .arr [] => ['[', ']']
  | .arr (v :: t) =>
    '[' :: '\n' :: (indC (d+1) ++ printVal (d+1) v ++ printElemsTail (d+1) t ++
      '\n' :: (indC d ++ [']']))
  | .obj [] => [lbrace, rbrace]
  | .obj (p :: t) =>
    lbrace :: '\n' :: (indC (d+1) ++ printEntry (d+1) p ++ printEntriesTail (d+1) t ++
      '\n' :: (indC d ++ [rbrace]))
def printEntry (d : Nat) : String × Jval → List Char
  | (k, v) => printStr k ++ ':' :: ' ' :: printVal d v
def printElemsTail (d : Nat) : List Jval → List Char
  | [] => []
  | v :: t => ',' :: '\n' :: (indC d ++ printVal d v ++ printElemsTail d t)
def printEntriesTail (d : Nat) : List (String × Jval) → List Char
  | [] => []
  | p :: t => ',' :: '\n' :: (indC d ++ printEntry d p ++ printEntriesTail d t)
end

-- `JSON.stringify(obj, null, 2)` (line 58).
def stringify (v : Jval) : List Char := printVal 0 v

-- JSON whitespace accepted by JSON.parse.
def jsonWsC (c : Char) : Bool :=
  c == ' ' || c == '\t' || c == '\n' || c == '\r'

def skipWs (cs : List Char) : List Char := cs.dropWhile jsonWsC

def hexVal (c : Char) : Option Nat :=
  if '0' ≤ c ∧ c ≤ '9' then some (c.toNat - 48)
  else if 'a' ≤ c ∧ c ≤ 'f' then some (c.toNat - 87)
  else if 'A' ≤ c ∧ c ≤ 'F' then some (c.toNat - 55)
  else none

def consMap (c : Char) (o : Option (List Char × List Char)) :
    Option (List Char × List Char) :=
  o.map (fun p => (c :: p.1, p.2))

-- Body of a JSON string literal (after the opening quote), per JSON.parse:
-- ends at an unescaped quote, accepts the named escapes and \uXXXX, rejects
-- raw control characters.  (Escapes denoting unpaired UTF-16 surrogates
-- have no scalar-value counterpart and are outside this model.)
def parseStrBody : List Char → Option (List Char × List Char)
  | [] => none
  | c :: r =>
    if c == '"' then some ([], r)
    else if c == '\\' then
      match r with
      | [] => none
      | e :: r2 =>
        if e == '"' then consMap '"' (parseStrBody r2)
        else if e == '\\' then consMap '\\' (parseStrBody r2)
        else if e == '/' then consMap '/' (parseStrBody r2)
        else if e == 'b' then consMap (Char.ofNat 8) (parseStrBody r2)
        else if e == 'f' then consMap (Char.ofNat 12) (parseStrBody r2)
        else if e == 'n' then consMap '\n' (parseStrBody r2)
        else if e == 'r' then consMap '\r' (parseStrBody r2)
        else if e == 't' then consMap '\t' (parseStrBody r2)
        else if e == 'u' then
          match r2 with
          | h1 :: h2 :: h3 :: h4 :: r3 =>
            match hexVal h1, hexVal h2, hexVal h3, hexVal h4 with
            | some a, some b, some c2, some d2 =>
              consMap (Char.ofNat (((a * 16 + b) * 16 + c2) * 16 + d2)) (parseStrBody r3)
            | _, _, _, _ => none
          | _ => none
        else none
    else if decide (c.toNat < 32) then none
    else consMap c (parseStrBody r)

-- JS property assignment `obj[k] = v`: an existing key keeps its position
-- and receives the new value; a fresh key is appended.
def jsObjInsert (ps : List (String × Jval)) (k : String) (v : Jval) :
    List (String × Jval) :=
  match ps with
  | [] => [(k, v)]
  | (k2, v2) :: t => if k2 == k then (k2, v) :: t else (k2, v2) :: jsObjInsert t k v

def jsObjFromEntries (l : List (String × Jval)) : List (String × Jval) :=
  l.foldl (fun acc p => jsObjInsert acc p.1 p.2) []

-- Recursive-descent JSON value parser (fuel-indexed; the fuel only bounds
-- recursion depth and is sized generously by the caller).
mutual
def parseVal : Nat → List Char → Option (Jval × List Char)
  | 0, _ => none
  | _+1, [] => none
  | n+1, c :: r =>
    if c == '"' then (parseStrBody r).map (fun p => (Jval.str (String.mk p.1), p.2))
    else if c == '[' then
      match skipWs r with
      | [] => none
      | c2 :: r2 =>
        if c2 == ']' then some (.arr [], r2)
        else (parseElems n (c2 :: r2)).map (fun p => (Jval.arr p.1, p.2))
    else if c == lbrace then
      match skipWs r with
      | [] => none
      | c2 :: r2 =>
        if c2 == rbrace then some (.obj [], r2)
        else (parseEntries n (c2 :: r2)).map
          (fun p => (Jval.obj (jsObjFromEntries p.1), p.2))
    else none
def parseElems : Nat → List Char → Option (List Jval × List Char)
  | 0, _ => none
  | n+1, cs => do
    let (v, r) ← parseVal n cs
    match skipWs r with
    | [] => none
    | c2 :: t =>
      if c2 == ',' then do
        let (vs, r2) ← parseElems n (skipWs t)
        pure (v :: vs, r2)
      else if c2 == ']' then pure ([v], t)
      else none
def parseEntries : Nat → List Char → Option (List (String × Jval) × List Char)
  | 0, _ => none
  | n+1, cs =>
    match cs with
    | [] => none
    | c :: r =>
      if c == '"' then do
        let (k, r1) ← parseStrBody r
        match skipWs r1 with
        | ':' :: r2 => do
          let (v, r3) ← parseVal n (skipWs r2)
          match skipWs r3 with
          | [] => none
          | c4 :: t =>
            if c4 == ',' then do
              let (ps, r4) ← parseEntries n (skipWs t)
              pure ((String.mk k, v) :: ps, r4)
            else if c4 == rbrace then pure ([(String.mk k, v)], t)
            else none
        | _ => none
      else none
end

-- `JSON.parse` on the modeled fragment: parse one value surrounded by
-- whitespace; trailing garbage is an error (`none` models a thrown
-- SyntaxError, which `readJsonSafe` turns into the fallback).
def parseJson (cs : List Char) : Option Jval :=
  match parseVal (cs.length + 1) (skipWs cs) with
  | some (v, rest) => if (skipWs rest).isEmpty then some v else none
  | none => none

-- Well-formedness of a store document: object keys are distinct at every
-- level (always true of a document obtained from JS objects, whose keys
-- are unique by construction).
mutual
def jwfB : Jval → Bool
  | .str _ => true
  | .arr l => jwfElems l
  | .obj l => decide ((l.map Prod.fst).Nodup) && jwfEntries l
def jwfElems : List Jval → Bool
  | [] => true
  | v :: t => jwfB v && jwfElems t
def jwfEntries : List (String × Jval) → Bool
  | [] => true
  | p :: t => jwfB p.2 && jwfEntries t
end

/- ===== filesystem model for the atomic write ===== -/

-- A flat filesystem: path contents, `none` = file absent.
abbrev FS : Type := String → Option (List Char)

def fsWrite (fs : FS) (path : String) (content : List Char) : FS :=
  fun p => if p = path then some content else fs p

-- First step of `writeJsonAtomic` (line 58): `fs.writeFileSync(tmp, ...)`
-- with `tmp = filePath + ".tmp"`.
def writeTmp (fs : FS) (filePath : String) (v : Jval) : FS :=
  fsWrite fs (filePath ++ (".tmp")) (stringify v)

-- Second step (line 59): `fs.renameSync(tmp, filePath)`, a single atomic
-- move of the temp file over the destination.
def renameTmp (fs : FS) (filePath : String) : FS :=
  fun p =>
    if p = filePath then fs (filePath ++ (".tmp"))
    else if p = filePath ++ (".tmp") then none
    else fs p

-- `writeJsonAtomic(filePath, obj)` (lines 56-60).
def writeJsonAtomic (fs : FS) (filePath : String) (v : Jval) : FS :=
  renameTmp (writeTmp fs filePath v) filePath

-- `readJsonSafe(filePath, fallback)` (lines 47-55): missing file or a
-- parse error both yield the fallback.
def readJsonSafe (fs : FS) (filePath : String) (fallback : Jval) : Jval :=
  match fs filePath with
  | none => fallback
  | some content =>
    match parseJson content with
    | some v => v
    | none => fallback

/- ===== helper lemmas ===== -/

theorem singleton_infix_of_mem {a : Char} {l : List Char} (h : a ∈ l) : [a] <:+: l := by
  obtain ⟨s, t, rfl⟩ := List.append_of_mem h
  exact ⟨s, t, by simp⟩

theorem mget_mset (st : MagMap) (u : String) (e : MagEntry) :
    mget (mset st u e) u = some e := by
  induction st with
  | nil => simp [mset, mget, List.find?]
  | cons p t ih =>
    obtain ⟨k, v⟩ := p
    by_cases hk : k = u
    · simp [mset, mget, hk, List.find?]
    · have hk2 : (k == u) = false := by simp [hk]
      simp [mset, mget, hk2, List.find?] at ih ⊢
      exact ih

/- ===== C1 ===== -/

/-- C1 counterexample: with an empty flag set, a failing rename
(`renameOk = false`) leaves the user absent from the flag set after
`markMaggot` returns, contradicting the claim that the flag is still
recorded internally. -/
theorem c1_counterexample :
    mget (markMaggot [] ("u1") ("worm") false 0) ("u1") = none := by
  decide

/-- C1 (amended): when an unflagged user triggers flag assignment and the
external display-rename action fails, `markMaggot` does NOT record the flag
(the flag set is returned unchanged); the flag is recorded with the given
label only when the rename succeeds. -/
theorem c1_flag_only_on_rename_success (st : MagMap) (u label : String) (nowMs : Nat)
    (h : mhas st u = false) :
    markMaggot st u label false nowMs = st
    ∧ mget (markMaggot st u label true nowMs) u = some ⟨label, nowMs⟩ := by
  constructor
  · simp [markMaggot, h]
  · simp only [markMaggot, h, Bool.false_eq_true, if_false, if_true]
    exact mget_mset st u ⟨label, nowMs⟩

/-- C1 witness: the amended statement at a concrete input. -/
theorem c1_witness :
    markMaggot [] ("u1") ("worm") false 0 = []
    ∧ mget (markMaggot [] ("u1") ("worm") true 0) ("u1") = some ⟨("worm"), 0⟩ :=
  c1_flag_only_on_rename_success [] ("u1") ("worm") 0 (by decide)

/- ===== C2 ===== -/

/-- C2: evaluation of the two enforcement paths at the failing input.  For a
user flagged with stored label "worm" whose current nickname IS "worm", the
reactive (message) path issues a rename to the fixed string "maggot" instead
of leaving the assigned label in place, while the rename-notification path
would then rename right back to "worm": the reactive path enforces a
hardcoded "maggot", not the assigned label. -/
theorem c2_reactive_eval :
    reactiveEnforce [(("u1"), ⟨("worm"), 0⟩)] ("u1") (some ("worm")) = some ("maggot")
    ∧ guildUpdateEnforce [(("u1"), ⟨("worm"), 0⟩)] ("u1") (some ("maggot")) = some ("worm") := by
  constructor
  · decide
  · decide

/- ===== C5 ===== -/

/-- C5: the amnesty command from the privileged operator: for a flagged
target it removes the user from the flag set regardless of whether the
display-name reset succeeded (`renameOk` is arbitrary), replying with the
grant message; for an unflagged target it leaves the flag set unchanged and
reports that the user is not flagged.  The embedding is a total function, so
neither path can throw. -/
theorem c5_amnesty_clears_flag (mention : String) (restT : List String) (st : MagMap)
    (renameOk : Bool) (uid : String) (hm : findMention mention.data = some uid) :
    (mhas st uid = true →
      amnestyBranch true (mention :: restT) st renameOk
        = (unmarkMaggot st uid,
            ("Amnesty granted to ") ++ mention ++ (". They are no longer a maggot.")))
    ∧ (mhas st uid = false →
      amnestyBranch true (mention :: restT) st renameOk
        = (st, "That user is not currently marked as a maggot.")) := by
  constructor
  · intro h
    simp [amnestyBranch, hm, h]
  · intro h
    simp [amnestyBranch, hm, h]

/-- C5 witness: both branches at concrete inputs. -/
theorem c5_witness :
    amnestyBranch true [("<@12>")] [(("12"), ⟨("worm"), 0⟩)] false
      = (unmarkMaggot [(("12"), ⟨("worm"), 0⟩)] ("12"),
          ("Amnesty granted to ") ++ ("<@12>") ++ (". They are no longer a maggot."))
    ∧ amnestyBranch true [("<@99>")] [(("12"), ⟨("worm"), 0⟩)] true
      = ([(("12"), ⟨("worm"), 0⟩)], "That user is not currently marked as a maggot.") :=
  ⟨(c5_amnesty_clears_flag ("<@12>") [] [(("12"), ⟨("worm"), 0⟩)] false ("12")
      (by decide)).1 (by decide),
   (c5_amnesty_clears_flag ("<@99>") [] [(("12"), ⟨("worm"), 0⟩)] true ("99")
      (by decide)).2 (by decide)⟩

/- ===== C6 ===== -/

/-- C6: for a non-command message from an unflagged user, the explicit
trigger check comes first: when it matches, the outcome is an assignment and
is independent of the random draw (the random path is not consulted); the
random path can make the check fire only when no explicit trigger matched,
the draw hit, and the message is longer than the 10-character minimum. -/
theorem c6_trigger_precedence (raw : String) (r r2 : Bool)
    (hcmd : jsStartsWith raw ("!") = false) :
    (explicitTrigger raw = true →
      shouldDegradeCheck raw false r = true
      ∧ shouldDegradeCheck raw false r = shouldDegradeCheck raw false r2)
    ∧ (explicitTrigger raw = false →
      shouldDegradeCheck raw false r = true → r = true ∧ 10 < (jsLower raw).length) := by
  constructor
  · intro hx
    constructor
    · simp [shouldDegradeCheck, hx]
    · simp [shouldDegradeCheck, hx]
  · intro hx hres
    rw [shouldDegradeCheck] at hres
    simp only [hx, hcmd] at hres
    cases r with
    | false => simp at hres
    | true =>
      refine ⟨rfl, ?_⟩
      by_cases hlen : 10 < (jsLower raw).length
      · exact hlen
      · simp [hlen] at hres

/-- C6 witness: a message containing the trigger "stfu" fires the check
regardless of the random draw. -/
theorem c6_witness :
    shouldDegradeCheck ("please STFU now") false false = true
    ∧ shouldDegradeCheck ("please STFU now") false false
      = shouldDegradeCheck ("please STFU now") false true :=
  (c6_trigger_precedence ("please STFU now") false true (by decide)).1 (by decide)

/- ===== C7 ===== -/

/-- C7: the response gate returns true for every non-automated-author
message whose text contains a question mark, whatever its length, random
draw, timestamps or keyword content; and it returns false for every message
from an automated (bot) author, whatever the content. -/
theorem c7_response_gate (content : String) (randHit : Bool) (nowMs lastMs : Int) :
    (content.data.contains '?' = true →
      shouldRespond content false randHit nowMs lastMs = true)
    ∧ shouldRespond content true randHit nowMs lastMs = false := by
  constructor
  · intro h
    have hmem : '?' ∈ content.data := by simpa using h
    have hq : '?' ∈ jsLower content := by
      rw [jsLower]
      exact List.mem_map.mpr ⟨'?', hmem, by decide⟩
    have hinc : jsIncludes (jsLower content) ("?") = true := by
      rw [jsIncludes]
      exact decide_eq_true_eq.mpr (singleton_infix_of_mem hq)
    by_cases hk : RESPOND_KEYWORDS.any (fun k => jsIncludes (jsLower content) k) = true
    · simp [shouldRespond, hk]
    · simp [shouldRespond, hk, hinc]
  · simp [shouldRespond]

/-- C7 witness: a short question from a human author passes the gate; the
same text from a bot author does not. -/
theorem c7_witness :
    shouldRespond ("ok?") false false 0 0 = true
    ∧ shouldRespond ("ok?") true false 0 0 = false :=
  ⟨(c7_response_gate ("ok?") false 0 0).1 (by decide),
   (c7_response_gate ("ok?") true 0 0).2⟩

/- ===== C9 ===== -/

/-- C9: whenever the generation backend throws, or returns no usable text
(no text function, or text that trims to empty), `respondWithIntel` returns
one of the two fixed nonempty fallback strings instead of propagating the
failure. -/
theorem c9_generation_fallback (mem : List Turn) (promptText : String)
    (gen : String → GenOutcome)
    (h : (∃ e, gen (composePrompt mem promptText) = .error e)
      ∨ (∃ t, gen (composePrompt mem promptText) = .ok t
          ∧ jsTrim (t.getD ("")) = (""))) :
    (respondWithIntel mem promptText gen = ("Gemini request failed. Check configuration.")
      ∨ respondWithIntel mem promptText gen = ("I couldn't formulate a response."))
    ∧ respondWithIntel mem promptText gen ≠ ("") := by
  obtain ⟨e, he⟩ | ⟨t, ht, htr⟩ := h
  · have hr : respondWithIntel mem promptText gen
        = ("Gemini request failed. Check configuration.") := by
      rw [respondWithIntel, he]
    rw [hr]
    exact ⟨Or.inl rfl, by decide⟩
  · rw [respondWithIntel, ht]
    simp only [htr]
    exact ⟨Or.inr (by simp), by simp⟩

/-- C9 witness: a throwing backend still yields the fixed nonempty fallback. -/
theorem c9_witness :
    (respondWithIntel [] ("hi") (fun _ => Except.error ("quota"))
        = ("Gemini request failed. Check configuration.")
      ∨ respondWithIntel [] ("hi") (fun _ => Except.error ("quota"))
        = ("I couldn't formulate a response."))
    ∧ respondWithIntel [] ("hi") (fun _ => Except.error ("quota")) ≠ ("") :=
  c9_generation_fallback [] ("hi") (fun _ => Except.error ("quota"))
    (Or.inl ⟨("quota"), rfl⟩)

/- ===== C10 ===== -/

/-- C10: `appendToMemory` mutates only the targeted channel: every other
channel observes the same stored sequence (and the same raw map entry)
before and after the call; the operation is a total function, so it always
succeeds. -/
theorem c10_append_frame (m : MemMap) (channelId speaker text ch2 : String)
    (h : ch2 ≠ channelId) :
    getMemory (appendToMemory m channelId speaker text) ch2 = getMemory m ch2
    ∧ appendToMemory m channelId speaker text ch2 = m ch2 := by
  have hf : appendToMemory m channelId speaker text ch2 = m ch2 := by
    simp [appendToMemory, h]
  exact ⟨by rw [getMemory, hf, getMemory], hf⟩

/-- C10 witness: the frame property at concrete channels. -/
theorem c10_witness :
    getMemory (appendToMemory emptyMem ("a") ("s") ("t")) ("b") = getMemory emptyMem ("b")
    ∧ appendToMemory emptyMem ("a") ("s") ("t") ("b") = emptyMem ("b") :=
  c10_append_frame emptyMem ("a") ("s") ("t") ("b") (by decide)

/- ===== lemmas for C3 ===== -/

theorem trimPush (n : Nat) (hn : 0 < n) (h : List Turn) (t : Turn) :
    (if n < (lastN n h ++ [t]).length then jsSliceNeg (lastN n h ++ [t]) n
      else lastN n h ++ [t])
      = lastN n (h ++ [t]) := by
  have hlen : (lastN n h).length = h.length - (h.length - n) := by
    rw [lastN, List.length_drop]
  by_cases hsmall : h.length < n
  · have h0 : h.length - n = 0 := by omega
    have hL : lastN n h = h := by rw [lastN, h0, List.drop_zero]
    rw [hL]
    have hc : ¬ n < (h ++ [t]).length := by
      rw [List.length_append]
      simp
      omega
    rw [if_neg hc, lastN]
    have h1 : (h ++ [t]).length - n = 0 := by
      rw [List.length_append]
      simp
      omega
    rw [h1, List.drop_zero]
  · have hklen : (lastN n h).length = n := by omega
    have hc : n < (lastN n h ++ [t]).length := by
      rw [List.length_append, hklen]
      simp
    rw [if_pos hc, jsSliceNeg, if_neg (by omega : ¬ n = 0)]
    have hplen : (lastN n h ++ [t]).length - n = 1 := by
      rw [List.length_append, hklen]
      simp
    rw [hplen]
    rw [List.drop_append_of_le_length (by omega : 1 ≤ (lastN n h).length)]
    rw [lastN, List.drop_drop, lastN]
    have h2a : (h ++ [t]).length - n = h.length + 1 - n := by
      rw [List.length_append]
      rfl
    rw [h2a]
    rw [List.drop_append_of_le_length (by omega : h.length + 1 - n ≤ h.length)]
    have h3 : h.length - n + 1 = h.length + 1 - n := by omega
    rw [h3]

theorem turnsFor_append_call (ch : String) (calls : List AppendCall) (c : AppendCall) :
    turnsFor ch (calls ++ [c])
      = turnsFor ch calls ++ (if c.channelId = ch then [⟨c.speaker, c.text⟩] else []) := by
  rw [turnsFor, turnsFor, List.filter_append, List.map_append]
  congr 1
  by_cases hc : c.channelId = ch
  · have hb : (c.channelId == ch) = true := by simp [hc]
    simp [List.filter, hb, hc]
  · have hb : (c.channelId == ch) = false := by simp [hc]
    simp [List.filter, hb, hc]

theorem runAppends_spec (calls : List AppendCall) (ch : String) :
    getMemory (runAppends calls) ch = lastN MAX_MEMORY_ENTRIES (turnsFor ch calls) := by
  induction calls using List.reverseRecOn with
  | nil => simp [runAppends, getMemory, emptyMem, turnsFor, lastN]
  | append_singleton calls c ih =>
    rw [runAppends, List.foldl_append, List.foldl_cons, List.foldl_nil]
    rw [turnsFor_append_call]
    have hrun : List.foldl (fun m c => appendToMemory m c.channelId c.speaker c.text)
        emptyMem calls = runAppends calls := rfl
    rw [hrun]
    by_cases hc : ch = c.channelId
    · rw [if_pos hc.symm]
      rw [getMemory] at ih ⊢
      simp only [appendToMemory, if_pos hc, Option.getD_some]
      rw [hc] at ih ⊢
      rw [ih]
      exact trimPush MAX_MEMORY_ENTRIES (by decide) (turnsFor c.channelId calls)
        ⟨c.speaker, c.text⟩
    · rw [if_neg (fun heq => hc heq.symm), List.append_nil]
      have hframe : appendToMemory (runAppends calls) c.channelId c.speaker c.text ch
          = runAppends calls ch := by
        simp [appendToMemory, hc]
      rw [getMemory, hframe]
      exact ih

/- ===== C3 ===== -/

/-- C3: replaying any finite sequence of `appendToMemory` calls from the
fresh store, every channel's stored sequence is exactly the last
MAX_MEMORY_ENTRIES turns appended to that channel in arrival order (FIFO
eviction of the oldest), and in particular its length never exceeds
MAX_MEMORY_ENTRIES; since every prefix of a call sequence is itself a call
sequence, this holds after each call. -/
theorem c3_memory_fifo (calls : List AppendCall) (ch : String) :
    getMemory (runAppends calls) ch = lastN MAX_MEMORY_ENTRIES (turnsFor ch calls)
    ∧ (getMemory (runAppends calls) ch).length ≤ MAX_MEMORY_ENTRIES := by
  refine ⟨runAppends_spec calls ch, ?_⟩
  rw [runAppends_spec calls ch, lastN, List.length_drop]
  omega

/- ===== lemmas for C4 ===== -/

theorem not_mem_keys_of_mhas_false {st : MagMap} {u : String} (h : mhas st u = false) :
    u ∉ st.map Prod.fst := by
  intro hmem
  obtain ⟨p, hp, hq⟩ := List.mem_map.mp hmem
  have hany : st.any (fun p => p.1 == u) = true :=
    List.any_eq_true.mpr ⟨p, hp, by simp [hq]⟩
  rw [mhas, hany] at h
  cases h

theorem mset_append_of_not_mem (st : MagMap) (u : String) (e : MagEntry)
    (h : u ∉ st.map Prod.fst) : mset st u e = st ++ [(u, e)] := by
  induction st with
  | nil => rfl
  | cons p t ih =>
    obtain ⟨k, v⟩ := p
    simp only [List.map_cons, List.mem_cons, not_or] at h
    have hk : (k == u) = false := by
      simp only [beq_eq_false_iff_ne, ne_eq]
      intro hku
      exact h.1 hku.symm
    have hstep : mset ((k, v) :: t) u e = (k, v) :: mset t u e := by
      simp [mset, hk]
    rw [hstep, ih h.2, List.cons_append]

theorem mdelete_sublist (st : MagMap) (u : String) : List.Sublist (mdelete st u) st := by
  induction st with
  | nil => simp [mdelete]
  | cons p t ih =>
    obtain ⟨k, v⟩ := p
    by_cases hk : (k == u) = true
    · have hstep : mdelete ((k, v) :: t) u = t := by simp [mdelete, hk]
      rw [hstep]
      exact List.sublist_cons_self (k, v) t
    · have hkf : (k == u) = false := by
        cases hkk : (k == u)
        · rfl
        · exact absurd hkk hk
      have hstep : mdelete ((k, v) :: t) u = (k, v) :: mdelete t u := by
        simp [mdelete, hkf]
      rw [hstep]
      exact List.Sublist.cons₂ (k, v) ih

theorem modStep_keys_nodup {st : MagMap} (h : (st.map Prod.fst).Nodup) (ev : ModEvent) :
    ((modStep st ev).map Prod.fst).Nodup := by
  cases ev with
  | trigger u l ok t =>
    rw [modStep, markMaggot]
    by_cases h1 : mhas st u = true
    · rw [if_pos h1]
      exact h
    · have h1f : mhas st u = false := by
        cases hm : mhas st u
        · rfl
        · exact absurd hm h1
      rw [if_neg (by rw [h1f]; exact Bool.false_ne_true)]
      cases ok with
      | true =>
        rw [if_pos rfl]
        rw [mset_append_of_not_mem st u _ (not_mem_keys_of_mhas_false h1f)]
        rw [List.map_append, List.nodup_append]
        refine ⟨h, List.nodup_singleton u, ?_⟩
        intro x hx hx2
        simp only [List.map_cons, List.map_nil, List.mem_singleton] at hx2
        subst hx2
        exact not_mem_keys_of_mhas_false h1f hx
      | false =>
        rw [if_neg Bool.false_ne_true]
        exact h
  | amnestyEv u =>
    rw [modStep, unmarkMaggot]
    exact List.Nodup.sublist (List.Sublist.map Prod.fst (mdelete_sublist st u)) h

theorem foldl_modStep_nodup (evs : List ModEvent) :
    ∀ st : MagMap, (st.map Prod.fst).Nodup
      → ((evs.foldl modStep st).map Prod.fst).Nodup := by
  induction evs with
  | nil =>
    intro st h
    simpa using h
  | cons ev t ih =>
    intro st h
    rw [List.foldl_cons]
    exact ih _ (modStep_keys_nodup h ev)

/- ===== C4 ===== -/

/-- C4: after any sequence of trigger (explicit or random) and amnesty
events starting from the empty flag set, the flag set has pairwise-distinct
user keys, so each user is absent or carries exactly one label; moreover
assigning to an already-flagged user leaves the flag set (and hence the
existing label) unchanged. -/
theorem c4_at_most_one_flag (evs : List ModEvent) :
    ((runMod evs).map Prod.fst).Nodup
    ∧ ∀ (st : MagMap) (u label : String) (renameOk : Bool) (nowMs : Nat),
        mhas st u = true → markMaggot st u label renameOk nowMs = st := by
  constructor
  · exact foldl_modStep_nodup evs [] (by simp)
  · intro st u label ok t hflag
    rw [markMaggot, if_pos hflag]

/-- C4 witness: a re-trigger on an already-flagged user does not replace the
stored label, and a concrete event run has pairwise-distinct keys. -/
theorem c4_witness :
    ((runMod [ModEvent.trigger ("u1") ("worm") true 0,
              ModEvent.trigger ("u1") ("slug") true 1,
              ModEvent.trigger ("u2") ("boot") true 2]).map Prod.fst).Nodup
    ∧ markMaggot [(("u1"), ⟨("worm"), 0⟩)] ("u1") ("slug") true 1
        = [(("u1"), ⟨("worm"), 0⟩)] :=
  ⟨(c4_at_most_one_flag [ModEvent.trigger ("u1") ("worm") true 0,
      ModEvent.trigger ("u1") ("slug") true 1,
      ModEvent.trigger ("u2") ("boot") true 2]).1,
   (c4_at_most_one_flag []).2 [(("u1"), ⟨("worm"), 0⟩)] ("u1") ("slug") true 1 (by decide)⟩

/- ===== lemmas for C8: printer equations ===== -/

theorem stringMk_data (s : String) : String.mk s.data = s := by
  cases s
  rfl

theorem printVal_str (d : Nat) (s : String) : printVal d (.str s) = printStr s := by
  simp [printVal]

theorem printVal_arr_nil (d : Nat) : printVal d (.arr []) = ['[', ']'] := by
  simp [printVal]

theorem printVal_arr_cons (d : Nat) (v : Jval) (t : List Jval) :
    printVal d (.arr (v :: t))
      = '[' :: '\n' :: (indC (d+1) ++ printVal (d+1) v ++ printElemsTail (d+1) t ++
          '\n' :: (indC d ++ [']'])) := by
  rw [printVal]

theorem printVal_obj_nil (d : Nat) : printVal d (.obj []) = [lbrace, rbrace] := by
  simp [printVal]

theorem printVal_obj_cons (d : Nat) (p : String × Jval) (t : List (String × Jval)) :
    printVal d (.obj (p :: t))
      = lbrace :: '\n' :: (indC (d+1) ++ printEntry (d+1) p ++ printEntriesTail (d+1) t ++
          '\n' :: (indC d ++ [rbrace])) := by
  rw [printVal]

theorem printEntry_eq (d : Nat) (k : String) (v : Jval) :
    printEntry d (k, v) = printStr k ++ ':' :: ' ' :: printVal d v := by
  rw [printEntry]

theorem printElemsTail_nil (d : Nat) : printElemsTail d [] = [] := by
  rw [printElemsTail]

theorem printElemsTail_cons (d : Nat) (v : Jval) (t : List Jval) :
    printElemsTail d (v :: t) = ',' :: '\n' :: (indC d ++ printVal d v ++ printElemsTail d t) := by
  rw [printElemsTail]

theorem printEntriesTail_nil (d : Nat) : printEntriesTail d [] = [] := by
  rw [printEntriesTail]

theorem printEntriesTail_cons (d : Nat) (p : String × Jval) (t : List (String × Jval)) :
    printEntriesTail d (p :: t)
      = ',' :: '\n' :: (indC d ++ printEntry d p ++ printEntriesTail d t) := by
  rw [printEntriesTail]

theorem jwfB_str (s : String) : jwfB (.str s) = true := by
  rw [jwfB]

theorem jwfB_arr (l : List Jval) : jwfB (.arr l) = jwfElems l := by
  rw [jwfB]

theorem jwfB_obj (l : List (String × Jval)) :
    jwfB (.obj l) = (decide ((l.map Prod.fst).Nodup) && jwfEntries l) := by
  rw [jwfB]

theorem jwfElems_cons (v : Jval) (t : List Jval) :
    jwfElems (v :: t) = (jwfB v && jwfElems t) := by
  rw [jwfElems]

theorem jwfEntries_cons (p : String × Jval) (t : List (String × Jval)) :
    jwfEntries (p :: t) = (jwfB p.2 && jwfEntries t) := by
  rw [jwfEntries]

theorem printStr_append (s : String) (x : List Char) :
    printStr s ++ x = '"' :: (escapeChars s.data ++ ('"' :: x)) := by
  rw [printStr]
  simp [List.append_assoc]

/- ===== lemmas for C8: whitespace skipping ===== -/

theorem skipWs_replicate_space (k : Nat) (cs : List Char) :
    skipWs (List.replicate k ' ' ++ cs) = skipWs cs := by
  induction k with
  | zero => rfl
  | succ k ih =>
    rw [List.replicate_succ, List.cons_append, skipWs, List.dropWhile_cons]
    simp only [show jsonWsC ' ' = true from rfl, if_true]
    exact ih

theorem skipWs_indC (d : Nat) (cs : List Char) : skipWs (indC d ++ cs) = skipWs cs := by
  rw [indC]
  exact skipWs_replicate_space (2 * d) cs

theorem skipWs_nl (cs : List Char) : skipWs ('\n' :: cs) = skipWs cs := by
  rw [skipWs, List.dropWhile_cons]
  simp only [show jsonWsC '\n' = true from rfl, if_true]
  rfl

theorem skipWs_space (cs : List Char) : skipWs (' ' :: cs) = skipWs cs := by
  rw [skipWs, List.dropWhile_cons]
  simp only [show jsonWsC ' ' = true from rfl, if_true]
  rfl

theorem skipWs_cons_of_neg {c : Char} (h : jsonWsC c = false) (cs : List Char) :
    skipWs (c :: cs) = c :: cs := by
  rw [skipWs, List.dropWhile_cons, h]
  rfl

theorem printVal_head (d : Nat) (v : Jval) :
    ∃ c0 s0, printVal d v = c0 :: s0
      ∧ jsonWsC c0 = false ∧ (c0 == ']') = false ∧ (c0 == rbrace) = false := by
  cases v with
  | str s =>
    exact ⟨'"', _, by rw [printVal_str, printStr], by decide, by decide, by decide⟩
  | arr l =>
    cases l with
    | nil => exact ⟨'[', _, by rw [printVal_arr_nil], by decide, by decide, by decide⟩
    | cons v t => exact ⟨'[', _, by rw [printVal_arr_cons], by decide, by decide, by decide⟩
  | obj l =>
    cases l with
    | nil => exact ⟨lbrace, _, by rw [printVal_obj_nil], by decide, by decide, by decide⟩
    | cons p t => exact ⟨lbrace, _, by rw [printVal_obj_cons], by decide, by decide, by decide⟩

theorem skipWs_printVal (d : Nat) (v : Jval) (x : List Char) :
    skipWs (printVal d v ++ x) = printVal d v ++ x := by
  obtain ⟨c0, s0, hps, hws, h1, h2⟩ := printVal_head d v
  rw [hps, List.cons_append]
  exact skipWs_cons_of_neg hws _

theorem printVal_length_pos (d : Nat) (v : Jval) : 0 < (printVal d v).length := by
  obtain ⟨c0, s0, hps, hws, h1, h2⟩ := printVal_head d v
  rw [hps]
  simp

theorem hexVal_hexDig (m : Nat) (hm : m < 16) : hexVal (hexDig m) = some m := by
  interval_cases m <;> decide

theorem escChar_step (c : Char) (r : List Char) :
    parseStrBody (escChar c ++ r) = consMap c (parseStrBody r) := by
  rw [escChar]
  split_ifs with h1 h2 h3 h4 h5 h6 h7 h8
  · have hc : c = '"' := by simpa using h1
    subst hc
    rw [List.cons_append, List.cons_append, List.nil_append, parseStrBody.eq_def]
    simp [consMap]
  · have hc : c = '\\' := by simpa using h2
    subst hc
    rw [List.cons_append, List.cons_append, List.nil_append, parseStrBody.eq_def]
    simp [consMap]
  · have hc : c = Char.ofNat 8 := by simpa using h3
    subst hc
    rw [List.cons_append, List.cons_append, List.nil_append, parseStrBody.eq_def]
    simp [consMap]
  · have hc : c = '\t' := by simpa using h4
    subst hc
    rw [List.cons_append, List.cons_append, List.nil_append, parseStrBody.eq_def]
    simp [consMap]
  · have hc : c = '\n' := by simpa using h5
    subst hc
    rw [List.cons_append, List.cons_append, List.nil_append, parseStrBody.eq_def]
    simp [consMap]
  · have hc : c = Char.ofNat 12 := by simpa using h6
    subst hc
    rw [List.cons_append, List.cons_append, List.nil_append, parseStrBody.eq_def]
    simp [consMap]
  · have hc : c = '\r' := by simpa using h7
    subst hc
    rw [List.cons_append, List.cons_append, List.nil_append, parseStrBody.eq_def]
    simp [consMap]
  · have hlt : c.toNat < 32 := of_decide_eq_true h8
    have hstep : parseStrBody ('\\' :: 'u' :: '0' :: '0' ::
          hexDig (c.toNat / 16) :: hexDig (c.toNat % 16) :: r)
        = (match hexVal '0', hexVal '0', hexVal (hexDig (c.toNat / 16)),
              hexVal (hexDig (c.toNat % 16)) with
           | some a, some b, some c2, some d2 =>
               consMap (Char.ofNat (((a * 16 + b) * 16 + c2) * 16 + d2)) (parseStrBody r)
           | _, _, _, _ => none) := by
      rw [parseStrBody.eq_def]
      simp
    rw [List.cons_append, List.cons_append, List.cons_append, List.cons_append,
        List.cons_append, List.cons_append, List.nil_append]
    rw [hstep]
    rw [hexVal_hexDig _ (by omega), hexVal_hexDig _ (by omega)]
    have hv : ((0 * 16 + 0) * 16 + c.toNat / 16) * 16 + c.toNat % 16 = c.toNat := by omega
    simp only [show hexVal '0' = some 0 from rfl]
    simp only [hv]
    rw [Char.ofNat_toNat]
  · have h1f : (c == '"') = false := by simpa using h1
    have h2f : (c == '\\') = false := by simpa using h2
    have h8f : decide (c.toNat < 32) = false := by simpa using h8
    rw [List.cons_append, List.nil_append, parseStrBody.eq_def]
    simp [h1f, h2f, h8f]

theorem parseStrBody_escape (l : List Char) (rest : List Char) :
    parseStrBody (escapeChars l ++ '"' :: rest) = some (l, rest) := by
  induction l with
  | nil =>
    rw [escapeChars, List.nil_append, parseStrBody.eq_def]
    simp
  | cons c t ih =>
    rw [escapeChars, List.append_assoc, escChar_step, ih]
    rfl

/- ===== lemmas for C8: object normalization ===== -/

theorem jsObjInsert_fresh (acc : List (String × Jval)) (k : String) (v : Jval)
    (h : k ∉ acc.map Prod.fst) : jsObjInsert acc k v = acc ++ [(k, v)] := by
  induction acc with
  | nil => rfl
  | cons p t ih =>
    obtain ⟨k2, v2⟩ := p
    simp only [List.map_cons, List.mem_cons, not_or] at h
    have hk : (k2 == k) = false := by
      simp only [beq_eq_false_iff_ne, ne_eq]
      intro hkk
      exact h.1 hkk.symm
    rw [jsObjInsert, hk]
    simp only [Bool.false_eq_true, if_false]
    rw [ih h.2, List.cons_append]

theorem foldl_jsObjInsert (l : List (String × Jval)) :
    ∀ acc : List (String × Jval), ((acc ++ l).map Prod.fst).Nodup →
      l.foldl (fun a p => jsObjInsert a p.1 p.2) acc = acc ++ l := by
  induction l with
  | nil =>
    intro acc h
    simp
  | cons p t ih =>
    intro acc h
    obtain ⟨k, v⟩ := p
    rw [List.foldl_cons]
    have hk : k ∉ acc.map Prod.fst := by
      rw [List.map_append, List.nodup_append] at h
      intro hmem
      exact h.2.2 hmem (by simp)
    rw [jsObjInsert_fresh acc k v hk]
    have h2 : (((acc ++ [(k, v)]) ++ t).map Prod.fst).Nodup := by
      rw [List.append_assoc, List.singleton_append]
      have : acc ++ (k, v) :: t = acc ++ (k, v) :: t := rfl
      rw [show acc ++ (k, v) :: t = acc ++ ((k, v) :: t) from rfl]
      exact h
    rw [ih (acc ++ [(k, v)]) h2, List.append_assoc, List.singleton_append]

theorem jsObjFromEntries_id (l : List (String × Jval)) (h : (l.map Prod.fst).Nodup) :
    jsObjFromEntries l = l := by
  rw [jsObjFromEntries]
  have := foldl_jsObjInsert l [] (by simpa using h)
  simpa using this

theorem indC_length (d : Nat) : (indC d).length = 2 * d := by
  simp [indC]

theorem printEntry_append (d : Nat) (k : String) (v : Jval) (x : List Char) :
    printEntry d (k, v) ++ x
      = '"' :: (escapeChars k.data ++ ('"' :: (':' :: ' ' :: (printVal d v ++ x)))) := by
  rw [printEntry_eq, printStr]
  simp [List.append_assoc]

theorem jwfElems_nil : jwfElems [] = true := by
  rw [jwfElems]

theorem jwfEntries_nil : jwfEntries [] = true := by
  rw [jwfEntries]

-- Round-trip of the parser over the printer, by induction on the fuel.
theorem parse_print_aux (n : Nat) :
    (∀ (v : Jval) (d : Nat) (rest : List Char),
       jwfB v = true → (printVal d v).length ≤ n →
       parseVal n (printVal d v ++ rest) = some (v, rest))
    ∧ (∀ (v0 : Jval) (t : List Jval) (d d2 : Nat) (rest : List Char),
       jwfB v0 = true → jwfElems t = true →
       (printVal d v0).length + (printElemsTail d t).length + 1 ≤ n →
       parseElems n (printVal d v0 ++ (printElemsTail d t ++ '\n' :: (indC d2 ++ ']' :: rest)))
         = some (v0 :: t, rest))
    ∧ (∀ (k : String) (v0 : Jval) (t : List (String × Jval)) (d d2 : Nat) (rest : List Char),
       jwfB v0 = true → jwfEntries t = true →
       (printEntry d (k, v0)).length + (printEntriesTail d t).length + 1 ≤ n →
       parseEntries n
           (printEntry d (k, v0) ++ (printEntriesTail d t ++ '\n' :: (indC d2 ++ rbrace :: rest)))
         = some ((k, v0) :: t, rest)) := by
  induction n with
  | zero =>
    refine ⟨?_, ?_, ?_⟩
    · intro v d rest hw hn
      exact absurd hn (by have := printVal_length_pos d v; omega)
    · intro v0 t d d2 rest h1 h2 hn
      exact absurd hn (by omega)
    · intro k v0 t d d2 rest h1 h2 hn
      exact absurd hn (by omega)
  | succ n ih =>
    obtain ⟨ihVal, ihElems, ihEntries⟩ := ih
    refine ⟨?_, ?_, ?_⟩
    · intro v d rest hw hn
      cases v with
      | str s =>
        rw [printVal_str, printStr_append, parseVal.eq_def]
        simp [parseStrBody_escape, stringMk_data]
      | arr l =>
        cases l with
        | nil =>
          rw [printVal_arr_nil, List.cons_append, List.cons_append, List.nil_append,
              parseVal.eq_def]
          simp [skipWs_cons_of_neg (show jsonWsC ']' = false from rfl)]
        | cons v0 t =>
          rw [jwfB_arr, jwfElems_cons, Bool.and_eq_true] at hw
          rw [printVal_arr_cons] at hn
          simp only [List.length_cons, List.length_append, indC_length] at hn
          rw [printVal_arr_cons]
          simp only [List.cons_append, List.append_assoc, List.singleton_append,
            List.nil_append]
          rw [parseVal.eq_def]
          simp only [show (('[' : Char) == '"') = false from rfl,
            show (('[' : Char) == '[') = true from rfl, Bool.false_eq_true, if_false, if_true]
          rw [skipWs_nl, skipWs_indC, skipWs_printVal]
          obtain ⟨c0, s0, hps, hws, hne1, hne2⟩ := printVal_head (d+1) v0
          rw [hps, List.cons_append]
          simp only [hne1, Bool.false_eq_true, if_false]
          rw [← List.cons_append, ← hps]
          rw [ihElems v0 t (d+1) d rest hw.1 hw.2 (by omega)]
          rfl
      | obj l =>
        cases l with
        | nil =>
          rw [printVal_obj_nil, List.cons_append, List.cons_append, List.nil_append,
              parseVal.eq_def]
          simp [skipWs_cons_of_neg (show jsonWsC rbrace = false from rfl),
            show lbrace ≠ '"' from by decide, show lbrace ≠ '[' from by decide,
            show rbrace ≠ ']' from by decide]
        | cons p t =>
          obtain ⟨k, v0⟩ := p
          rw [jwfB_obj, Bool.and_eq_true] at hw
          obtain ⟨hnodup, hentries⟩ := hw
          rw [jwfEntries_cons, Bool.and_eq_true] at hentries
          rw [printVal_obj_cons] at hn
          simp only [List.length_cons, List.length_append, indC_length] at hn
          rw [printVal_obj_cons]
          simp only [List.cons_append, List.append_assoc, List.singleton_append,
            List.nil_append]
          rw [parseVal.eq_def]
          simp only [show (lbrace == '"') = false by decide,
            show (lbrace == '[') = false by decide,
            show (lbrace == lbrace) = true by decide, Bool.false_eq_true, if_false, if_true]
          rw [skipWs_nl, skipWs_indC]
          rw [show printEntry (d+1) (k, v0)
                ++ (printEntriesTail (d+1) t ++ '\n' :: (indC d ++ rbrace :: rest))
              = '"' :: (escapeChars k.data ++ ('"' :: (':' :: ' ' ::
                  (printVal (d+1) v0
                    ++ (printEntriesTail (d+1) t ++ '\n' :: (indC d ++ rbrace :: rest))))))
            from printEntry_append (d+1) k v0 _]
          rw [skipWs_cons_of_neg (show jsonWsC '"' = false from rfl)]
          simp only [show (('"' : Char) == rbrace) = false by decide, Bool.false_eq_true,
            if_false]
          rw [← printEntry_append]
          have hfuel : (printEntry (d+1) (k, v0)).length
              + (printEntriesTail (d+1) t).length + 1 ≤ n := by
            simp only [printEntry_eq, List.length_append, List.length_cons] at hn ⊢
            omega
          rw [ihEntries k v0 t (d+1) d rest hentries.1 hentries.2 hfuel]
          have hnd : ((((k, v0) :: t).map Prod.fst).Nodup) := of_decide_eq_true hnodup
          have hred : Option.map (fun p => (Jval.obj (jsObjFromEntries p.1), p.2))
              (some ((k, v0) :: t, rest))
              = some (Jval.obj (jsObjFromEntries ((k, v0) :: t)), rest) := rfl
          rw [hred, jsObjFromEntries_id _ hnd]
    · intro v0 t d d2 rest hw0 hwt hn
      rw [parseElems.eq_def]
      simp only [ihVal v0 d (printElemsTail d t ++ '\n' :: (indC d2 ++ ']' :: rest)) hw0
        (by omega)]
      cases t with
      | nil =>
        rw [printElemsTail_nil, List.nil_append]
        simp only [Option.bind_eq_bind, Option.some_bind]
        rw [skipWs_nl, skipWs_indC, skipWs_cons_of_neg (show jsonWsC ']' = false from rfl)]
        simp
      | cons v1 t2 =>
        rw [jwfElems_cons, Bool.and_eq_true] at hwt
        rw [printElemsTail_cons] at hn
        simp only [List.length_cons, List.length_append, indC_length] at hn
        rw [printElemsTail_cons]
        simp only [Option.bind_eq_bind, Option.some_bind, List.cons_append,
          List.append_assoc, List.nil_append]
        rw [skipWs_cons_of_neg (show jsonWsC ',' = false from rfl)]
        simp only [show ((',' : Char) == ',') = true from rfl, if_true]
        rw [skipWs_nl, skipWs_indC, skipWs_printVal]
        rw [ihElems v1 t2 d d2 rest hwt.1 hwt.2 (by omega)]
        rfl
    · intro k v0 t d d2 rest hwv hwt hn
      rw [printEntry_eq] at hn
      simp only [List.length_append, List.length_cons] at hn
      rw [printEntry_append, parseEntries.eq_def]
      simp only [show (('"' : Char) == '"') = true from rfl, if_true]
      rw [parseStrBody_escape]
      simp only [Option.bind_eq_bind, Option.some_bind]
      rw [skipWs_cons_of_neg (show jsonWsC ':' = false from rfl)]
      simp only [Option.bind_eq_bind]
      rw [skipWs_space, skipWs_printVal]
      rw [ihVal v0 d _ hwv (by omega)]
      simp only [Option.bind_eq_bind, Option.some_bind]
      cases t with
      | nil =>
        rw [printEntriesTail_nil, List.nil_append]
        rw [skipWs_nl, skipWs_indC,
          skipWs_cons_of_neg (show jsonWsC rbrace = false by decide)]
        simp only [show (rbrace == ',') = false by decide, Bool.false_eq_true, if_false,
          show (rbrace == rbrace) = true by decide, if_true]
        simp [stringMk_data]
      | cons p2 t2 =>
        obtain ⟨k2, v2⟩ := p2
        rw [jwfEntries_cons, Bool.and_eq_true] at hwt
        rw [printEntriesTail_cons] at hn
        simp only [List.length_cons, List.length_append, indC_length] at hn
        rw [printEntriesTail_cons]
        simp only [List.cons_append, List.append_assoc, List.nil_append]
        rw [skipWs_cons_of_neg (show jsonWsC ',' = false from rfl)]
        simp only [show ((',' : Char) == ',') = true from rfl, if_true]
        rw [skipWs_nl, skipWs_indC]
        rw [show printEntry d (k2, v2)
              ++ (printEntriesTail d t2 ++ '\n' :: (indC d2 ++ rbrace :: rest))
            = '"' :: (escapeChars k2.data ++ ('"' :: (':' :: ' ' ::
                (printVal d v2 ++ (printEntriesTail d t2
                  ++ '\n' :: (indC d2 ++ rbrace :: rest))))))
          from printEntry_append d k2 v2 _]
        rw [skipWs_cons_of_neg (show jsonWsC '"' = false from rfl)]
        rw [← printEntry_append]
        have hfuel : (printEntry d (k2, v2)).length + (printEntriesTail d t2).length + 1
            ≤ n := by
          simp only [printEntry_eq, List.length_append, List.length_cons] at hn ⊢
          omega
        rw [ihEntries k2 v2 t2 d d2 rest hwt.1 hwt.2 hfuel]
        simp [stringMk_data]

theorem stringify_parseJson (v : Jval) (h : jwfB v = true) :
    parseJson (stringify v) = some v := by
  rw [parseJson, stringify]
  have hskip : skipWs (printVal 0 v) = printVal 0 v := by
    have := skipWs_printVal 0 v []
    simpa using this
  rw [hskip]
  have hp : parseVal ((printVal 0 v).length + 1) (printVal 0 v ++ []) = some (v, []) :=
    (parse_print_aux ((printVal 0 v).length + 1)).1 v 0 [] h (by omega)
  rw [List.append_nil] at hp
  rw [hp]
  simp [skipWs]

theorem filePath_ne_tmp (p : String) : p ≠ p ++ (".tmp") := by
  intro h
  have hd : p.data = p.data ++ (".tmp").data := by
    have h1 := congrArg String.data h
    have h2 : (p ++ (".tmp")).data = p.data ++ (".tmp").data := rfl
    rw [h2] at h1
    exact h1
  have hl := congrArg List.length hd
  rw [List.length_append] at hl
  simp at hl

/- ===== C8 ===== -/

/-- C8: for every JSON-representable store document (the persisted documents
contain only strings, arrays and objects, with distinct keys as JS objects
have), writing it with `writeJsonAtomic` and reloading it with
`readJsonSafe` yields the value that was written; and the intermediate
temp-file write leaves the committed file untouched, so a reader of the
final path never observes a partially written document -- only the
atomic rename publishes the new content. -/
theorem c8_store_roundtrip (fs : FS) (filePath : String) (v fallback : Jval)
    (h : jwfB v = true) :
    readJsonSafe (writeJsonAtomic fs filePath v) filePath fallback = v
    ∧ writeTmp fs filePath v filePath = fs filePath := by
  constructor
  · rw [readJsonSafe, writeJsonAtomic]
    have h1 : renameTmp (writeTmp fs filePath v) filePath filePath = some (stringify v) := by
      rw [renameTmp]
      simp [writeTmp, fsWrite]
    rw [h1]
    simp only [stringify_parseJson v h]
  · rw [writeTmp, fsWrite]
    simp only [if_neg (filePath_ne_tmp filePath)]

/-- C8 witness: the round trip and the untouched committed file at a
concrete store document. -/
theorem c8_witness :
    readJsonSafe
        (writeJsonAtomic (fun _ => none) ("data/aliases.json")
          (Jval.obj [(("7"), Jval.str ("Reaper"))]))
        ("data/aliases.json") (Jval.obj [])
      = Jval.obj [(("7"), Jval.str ("Reaper"))]
    ∧ writeTmp (fun _ => none) ("data/aliases.json")
        (Jval.obj [(("7"), Jval.str ("Reaper"))]) ("data/aliases.json")
      = (fun _ => (none : Option (List Char))) ("data/aliases.json") :=
  c8_store_roundtrip (fun _ => none) ("data/aliases.json")
    (Jval.obj [(("7"), Jval.str ("Reaper"))]) (Jval.obj [])
    (by rw [jwfB_obj, jwfEntries_cons, jwfEntries_nil, jwfB_str]; simp)
